import Mathlib

/-!
Verification of the reputation-dashboard scoring core.

The scoring, normalization, snapshot-selection and trend-bucketing logic of
the dashboard is embedded shallowly:

* JS numbers are idealized as rationals (`ℚ`); `Math.round` is half-up
  rounding (`jsRound`), and `Math.round(x * 10) / 10` is `round1`.
* ISO-8601 timestamp strings are modeled as a `Ts` pair of a calendar-date
  index and a time-of-day index; both string comparison and `new Date`
  comparison of such strings coincide with the lexicographic order `tsLt` /
  `tsLe`, and `fetched_at.split('T')[0]` (the calendar-date part) is the
  `date` component.
* `Array.reduce((sum, x) => sum + f(x), 0)` is `sumBy f`.
* A JS `Map` that is consumed only through `.get` is modeled as a function
  to `Option`; a `Map` whose `.values()` iteration order matters is modeled
  as an association list in insertion order.
-/

namespace Kasa

/-- JS `Math.round`: rounds half-way cases up (toward `+∞`). -/
def jsRound (q : ℚ) : ℤ := ⌊q + 1 / 2⌋

/-- JS `Math.round(x * 10) / 10`: round to one decimal place. -/
def round1 (q : ℚ) : ℚ := (jsRound (q * 10) : ℚ) / 10

/-- The four review platforms (`ReviewPlatform` in `types/index.ts`). -/
inductive Platform
  | google
  | tripadvisor
  | booking
  | expedia
deriving DecidableEq, Repr

/-- The fixed platform iteration order used throughout the source. -/
def platformsList : List Platform :=
  [.google, .tripadvisor, .booking, .expedia]

/-- A timestamp: calendar-date index plus time-of-day index (model of an
ISO-8601 `fetched_at` string, compared lexicographically). -/
structure Ts where
  date : ℤ
  time : ℤ
deriving DecidableEq, Repr

/-- Strict chronological order on timestamps (`new Date(a) < new Date(b)`,
equivalently ISO-string `a < b`). -/
def tsLt (a b : Ts) : Prop :=
  a.date < b.date ∨ (a.date = b.date ∧ a.time < b.time)

/-- Non-strict chronological order on timestamps. -/
def tsLe (a b : Ts) : Prop :=
  a.date < b.date ∨ (a.date = b.date ∧ a.time ≤ b.time)

instance (a b : Ts) : Decidable (tsLt a b) := by
  unfold tsLt; exact inferInstance

instance (a b : Ts) : Decidable (tsLe a b) := by
  unfold tsLe; exact inferInstance

theorem tsLe_of_not_tsLt {a b : Ts} (h : ¬ tsLt a b) : tsLe b a := by
  unfold tsLt at h
  unfold tsLe
  omega

theorem tsLe_refl (a : Ts) : tsLe a a := by
  unfold tsLe; omega

theorem tsLe_antisymm {a b : Ts} (h1 : tsLe a b) (h2 : tsLe b a) : a = b := by
  unfold tsLe at h1 h2
  have hd : a.date = b.date := by omega
  have ht : a.time = b.time := by omega
  cases a; cases b
  simp_all

theorem tsLe_of_tsLt {a b : Ts} (h : tsLt a b) : tsLe a b := by
  unfold tsLt at h
  unfold tsLe
  omega

/-- A persisted review snapshot (an Observation): one timestamped rating
record for one (hotel, platform) pair (`ReviewSnapshot` in
`types/index.ts`). -/
structure ReviewSnapshot where
  hotel_id : ℕ
  platform : Platform
  rating : ℚ
  original_rating : ℚ
  review_count : ℚ
  fetched_at : Ts
deriving DecidableEq, Repr

/-- A `(rating, review_count)` pair as consumed by the weighted-score
calculator. -/
structure Review where
  rating : ℚ
  review_count : ℚ
deriving DecidableEq, Repr

/-- `list.reduce((sum, x) => sum + f(x), 0)`. -/
def sumBy (f : α → ℚ) (l : List α) : ℚ :=
  l.foldl (fun sum x => sum + f x) 0

theorem sumBy_eq_map_sum (f : α → ℚ) (l : List α) :
    sumBy f l = (l.map f).sum := by
  suffices h : ∀ a : ℚ, l.foldl (fun sum x => sum + f x) a = a + (l.map f).sum by
    have := h 0
    simpa [sumBy] using this
  induction l with
  | nil => intro a; simp
  | cons x xs ih =>
    intro a
    simp only [List.foldl_cons, List.map_cons, List.sum_cons, ih]
    ring

theorem sumBy_cons (f : α → ℚ) (x : α) (l : List α) :
    sumBy f (x :: l) = f x + sumBy f l := by
  simp [sumBy_eq_map_sum]

theorem sumBy_append (f : α → ℚ) (l1 l2 : List α) :
    sumBy f (l1 ++ l2) = sumBy f l1 + sumBy f l2 := by
  simp [sumBy_eq_map_sum]

/-- `calculateWeightedScore` (api-helpers): review-count-weighted average of
the ratings, rounded to one decimal; returns `0` when the total weight is
zero. -/
def calculateWeightedScore (reviews : List Review) : ℚ :=
  let totalWeight := sumBy (fun r => r.review_count) reviews
  if totalWeight = 0 then 0
  else
    let weightedSum := sumBy (fun r => r.rating * r.review_count) reviews
    round1 (weightedSum / totalWeight)

/-- The reviews of one hotel, as consumed by `calculateGroupAggregateScore`. -/
structure HotelReviews where
  hotel_id : ℕ
  reviews : List Review
deriving DecidableEq, Repr

/-- A `(score, totalReviews)` pair pushed onto `hotelScores` inside
`calculateGroupAggregateScore`. -/
structure ScoreTotal where
  score : ℚ
  totalReviews : ℚ
deriving DecidableEq, Repr

/-- `calculateGroupAggregateScore` (api-helpers): a weighted score per hotel
(via `calculateWeightedScore`, rounded), then a weighted average of the hotel
scores weighted by each hotel's total review count, rounded again. -/
def calculateGroupAggregateScore (hotelReviews : List HotelReviews) : Option ℚ :=
  if hotelReviews = [] then none
  else
    let hotelScores : List ScoreTotal :=
      hotelReviews.filterMap (fun h =>
        if h.reviews = [] then none
        else some ⟨calculateWeightedScore h.reviews,
                   sumBy (fun r => r.review_count) h.reviews⟩)
    if hotelScores = [] then none
    else
      let totalReviews := sumBy (fun h => h.totalReviews) hotelScores
      if totalReviews = 0 then none
      else
        let weightedSum := sumBy (fun h => h.score * h.totalReviews) hotelScores
        some (round1 (weightedSum / totalReviews))

/-- `calculateGroupAggregateForDate` (api-helpers): flat weighted average over
all snapshots of one date bucket (the `.map` in the source is the identity on
the `(rating, review_count)` projection embedded here). -/
def calculateGroupAggregateForDate (snapshots : List Review) : Option ℚ :=
  if snapshots = [] then none
  else some (calculateWeightedScore snapshots)

/-- The two rating scales accepted by `normalizeScore`. -/
inductive Scale
  | one5
  | one10
deriving DecidableEq, Repr

/-- `normalizeScore` (api-helpers): `"1-5"` ratings are doubled, `"1-10"`
ratings are returned unchanged. -/
def normalizeScore (score : ℚ) (scale : Scale) : ℚ :=
  match scale with
  | .one5 => score * 2
  | .one10 => score

/-- The normalization branch of the Expedia route (`rating > 5` is taken as
"already 0–10 (or 0–100)"; `rating ≤ 5` as "1–5, multiply by 2"). -/
def expediaNormalize (rating : ℚ) : ℚ :=
  if 5 < rating then
    if 10 < rating then rating / 10 else rating
  else rating * 2

/-- The normalization step of the Booking route: `const normalizedRating =
rating` — no transformation at all. -/
def bookingNormalize (rating : ℚ) : ℚ := rating

/-- The `Map` key `` `${hotel_id}-${platform}` `` of `getLatestSnapshots`
(none of the four platform names is a suffix of another, so the string key is
in bijection with this pair). -/
def snapKey (s : ReviewSnapshot) : ℕ × Platform := (s.hotel_id, s.platform)

/-- One step of `getLatestSnapshots` (GroupScoreCard): keep the snapshot with
the strictly greater `fetched_at`, the earlier-inserted one on ties. -/
def latestStep (m : ℕ × Platform → Option ReviewSnapshot) (s : ReviewSnapshot) :
    ℕ × Platform → Option ReviewSnapshot := fun k =>
  if k = snapKey s then
    match m (snapKey s) with
    | none => some s
    | some existing =>
        if tsLt existing.fetched_at s.fetched_at then some s else some existing
  else m k

/-- `getLatestSnapshots` (GroupScoreCard): latest snapshot per
(hotel, platform) key, as a lookup function (the source `Map` is consumed
only through `.get`). -/
def getLatestSnapshots (snapshots : List ReviewSnapshot) :
    ℕ × Platform → Option ReviewSnapshot :=
  snapshots.foldl latestStep (fun _ => none)

/-- Lookup in the insertion-ordered association list modeling the
single-hotel page's `platformMap`. -/
def findPlat (acc : List (Platform × ReviewSnapshot)) (p : Platform) :
    Option ReviewSnapshot :=
  match acc with
  | [] => none
  | (q, s) :: t => if q = p then some s else findPlat t p

/-- The `platformMap` loop of `loadHotelData` (single-hotel page): keeps the
FIRST snapshot per platform in input order (`if (!platformMap.has(...))`),
relying on the caller's descending `fetched_at` sort; insertion order
preserved because `.values()` is iterated afterwards. -/
def firstPerPlatform (snapshots : List ReviewSnapshot) :
    List (Platform × ReviewSnapshot) :=
  snapshots.foldl
    (fun acc s =>
      match findPlat acc s.platform with
      | some _ => acc
      | none => acc ++ [(s.platform, s)])
    []

/-- `ScoreData` (types): the per-platform entry of the single-hotel view. -/
structure ScoreData where
  platform : Platform
  rating : ℚ
  originalRating : ℚ
  reviewCount : ℚ
deriving DecidableEq, Repr

/-- `scoresData` of `loadHotelData`: `Array.from(platformMap.values())`
transformed into `ScoreData` — note: NO `review_count > 0` filter. -/
def loadScoresData (snapshots : List ReviewSnapshot) : List ScoreData :=
  (firstPerPlatform snapshots).map (fun pr =>
    ⟨pr.2.platform, pr.2.rating, pr.2.original_rating, pr.2.review_count⟩)

/-- `totalReviews` of `loadHotelData`'s weighted-score computation. -/
def loadTotalReviews (scoresData : List ScoreData) : ℚ :=
  sumBy (fun s => s.reviewCount) scoresData

/-- `weightedSum` of `loadHotelData`'s weighted-score computation. -/
def loadWeightedSum (scoresData : List ScoreData) : ℚ :=
  sumBy (fun s => s.rating * s.reviewCount) scoresData

/-- `PlatformScore` (GroupScoreCard internal type). -/
structure PlatformScore where
  rating : ℚ
  review_count : ℚ
deriving DecidableEq, Repr

/-- The guard `snapshot && snapshot.review_count > 0` of
`buildHotelScoreData`, applied to the latest-snapshot lookup. -/
def survivingSnapshot (latest : ℕ × Platform → Option ReviewSnapshot)
    (hid : ℕ) (p : Platform) : Option ReviewSnapshot :=
  match latest (hid, p) with
  | some s => if 0 < s.review_count then some s else none
  | none => none

/-- The `platformData` record built by `buildHotelScoreData`. -/
def buildPlatformData (latest : ℕ × Platform → Option ReviewSnapshot)
    (hid : ℕ) : Platform → Option PlatformScore := fun p =>
  (survivingSnapshot latest hid p).map (fun s => ⟨s.rating, s.review_count⟩)

/-- The `reviews` array pushed by `buildHotelScoreData`'s platform loop. -/
def buildReviews (latest : ℕ × Platform → Option ReviewSnapshot)
    (hid : ℕ) : List Review :=
  platformsList.filterMap (fun p =>
    (survivingSnapshot latest hid p).map (fun s => ⟨s.rating, s.review_count⟩))

/-- The `lastUpdated` tracking of `buildHotelScoreData` (string comparison of
ISO timestamps = `tsLt`). -/
def buildLastUpdated (latest : ℕ × Platform → Option ReviewSnapshot)
    (hid : ℕ) : Option Ts :=
  (platformsList.filterMap (survivingSnapshot latest hid)).foldl
    (fun acc s =>
      match acc with
      | none => some s.fetched_at
      | some t => if tsLt t s.fetched_at then some s.fetched_at else some t)
    none

/-- `HotelScoreData` (GroupScoreCard internal type), hotel field omitted. -/
structure HotelScoreData where
  platformData : Platform → Option PlatformScore
  weighted_score : Option ℚ
  total_reviews : ℚ
  last_updated : Option Ts

/-- `buildHotelScoreData` (GroupScoreCard): per-platform latest snapshots
filtered to `review_count > 0`, weighted score over the survivors
(`undefined` when none survive). -/
def buildHotelScoreData (latest : ℕ × Platform → Option ReviewSnapshot)
    (hid : ℕ) : HotelScoreData :=
  { platformData := buildPlatformData latest hid
    weighted_score :=
      if buildReviews latest hid = [] then none
      else some (calculateWeightedScore (buildReviews latest hid))
    total_reviews := sumBy (fun r => r.review_count) (buildReviews latest hid)
    last_updated := buildLastUpdated latest hid }

/-- `snapshot.fetched_at.split('T')[0]`: the calendar-date key used by the
group page's `chartData` bucketing. -/
def dateKey (s : ReviewSnapshot) : ℤ := s.fetched_at.date

/-- One step of the `snapshotsByDate` map construction: push onto the
existing bucket for the snapshot's date, or append a new bucket (JS `Map`
keeps keys in insertion order). -/
def addSnap : List (ℤ × List ReviewSnapshot) → ReviewSnapshot →
    List (ℤ × List ReviewSnapshot)
  | [], s => [(dateKey s, [s])]
  | (k, b) :: t, s =>
      if k = dateKey s then (k, b ++ [s]) :: t else (k, b) :: addSnap t s

/-- The `snapshotsByDate` map of `chartData`: snapshots grouped by calendar
date, in insertion order of first occurrence. -/
def groupByDate (snapshots : List ReviewSnapshot) :
    List (ℤ × List ReviewSnapshot) :=
  snapshots.foldl addSnap []

/-- The per-date aggregate of `chartData`: flat weighted average over the
bucket, `0` when the bucket's total weight is not positive. -/
def dateAggregate (dateSnapshots : List ReviewSnapshot) : ℚ :=
  let totalWeight := sumBy (fun s => s.review_count) dateSnapshots
  if 0 < totalWeight then
    round1 (sumBy (fun s => s.rating * s.review_count) dateSnapshots / totalWeight)
  else 0

/-- A point of the group trend chart. -/
structure TrendPoint where
  date : ℤ
  aggregateScore : ℚ
deriving DecidableEq, Repr

/-- Insertion step of the ascending-by-date sort of `chartData`. -/
def insertPoint (p : TrendPoint) : List TrendPoint → List TrendPoint
  | [] => [p]
  | q :: t => if q.date ≤ p.date then q :: insertPoint p t else p :: q :: t

/-- The `.sort((a, b) => a.date.getTime() - b.date.getTime())` of
`chartData` (a stable ascending sort, modeled as insertion sort). -/
def sortPoints : List TrendPoint → List TrendPoint
  | [] => []
  | p :: t => insertPoint p (sortPoints t)

/-- `chartData` (group page): bucket the filtered snapshots by calendar date,
aggregate each bucket, sort ascending by date. -/
def chartPoints (snapshots : List ReviewSnapshot) : List TrendPoint :=
  sortPoints ((groupByDate snapshots).map (fun kb => ⟨kb.1, dateAggregate kb.2⟩))

/-- The four supported date ranges of the group page. -/
inductive DateRange
  | d7
  | d30
  | d90
  | all
deriving DecidableEq, Repr

/-- The day count of a range (`null` for `'all'`). -/
def rangeDays : DateRange → Option ℤ
  | .d7 => some 7
  | .d30 => some 30
  | .d90 => some 90
  | .all => none

/-- `getDateFilter`: `now - days * 24h` (subtracting a whole number of days
shifts the calendar date and keeps the time of day), `null` for `'all'`. -/
def getDateFilter (r : DateRange) (now : Ts) : Option Ts :=
  (rangeDays r).map (fun d => ⟨now.date - d, now.time⟩)

/-- `filteredSnapshots`: keep snapshots with
`new Date(s.fetched_at) >= dateFilter`; all of them for `'all'`. -/
def filteredSnapshots (r : DateRange) (now : Ts)
    (allSnapshots : List ReviewSnapshot) : List ReviewSnapshot :=
  match getDateFilter r now with
  | none => allSnapshots
  | some cutoff => allSnapshots.filter (fun s => decide (tsLe cutoff s.fetched_at))

/-- The composed trend pipeline of the group page: range filter
(`filteredSnapshots`), then bucketing and aggregation (`chartData`). -/
def buildTrend (allSnapshots : List ReviewSnapshot) (r : DateRange)
    (now : Ts) : List TrendPoint :=
  chartPoints (filteredSnapshots r now allSnapshots)

/-- `ReviewData` as delivered by a platform route (`data.data` in the
fetch-all route). -/
structure ReviewData where
  rating : ℚ
  normalized_rating : ℚ
  review_count : ℚ
deriving DecidableEq, Repr

/-- The `reviewSnapshots` rows built by the fetch-all ingestion route: one
row per platform whose fetch succeeded, in the fixed platform order;
`observedAt` is the server-assigned timestamp. -/
def buildReviewSnapshots (hid : ℕ) (results : Platform → Option ReviewData)
    (observedAt : Ts) : List ReviewSnapshot :=
  platformsList.filterMap (fun p =>
    (results p).map (fun d =>
      { hotel_id := hid
        platform := p
        rating := d.normalized_rating
        original_rating := d.rating
        review_count := d.review_count
        fetched_at := observedAt }))

/-- A database operation on the `review_snapshots` table. -/
inductive DbOp
  | insertRows (rows : List ReviewSnapshot)
  | updateRow (idx : ℕ) (row : ReviewSnapshot)
deriving DecidableEq, Repr

/-- Whether an operation is an insertion. -/
def DbOp.isInsert : DbOp → Bool
  | .insertRows _ => true
  | .updateRow _ _ => false

/-- Effect of a database operation on the snapshot table. -/
def applyOp (db : List ReviewSnapshot) : DbOp → List ReviewSnapshot
  | .insertRows rows => db ++ rows
  | .updateRow i row => db.set i row

/-- The database operations issued by the fetch-all ingestion route: a single
`.insert(reviewSnapshots)` when any platform succeeded, nothing otherwise. -/
def ingestionOps (hid : ℕ) (results : Platform → Option ReviewData)
    (observedAt : Ts) : List DbOp :=
  let rows := buildReviewSnapshots hid results observedAt
  if rows = [] then [] else [.insertRows rows]

/-- The snapshot table after one run of the ingestion route. -/
def runIngestion (db : List ReviewSnapshot) (hid : ℕ)
    (results : Platform → Option ReviewData) (observedAt : Ts) :
    List ReviewSnapshot :=
  (ingestionOps hid results observedAt).foldl applyOp db

/-! ### General lemmas about the weighted-average arithmetic -/

theorem sumBy_nonneg {f : α → ℚ} {l : List α} (h : ∀ x ∈ l, 0 ≤ f x) :
    0 ≤ sumBy f l := by
  rw [sumBy_eq_map_sum]
  apply List.sum_nonneg
  intro q hq
  obtain ⟨x, hx, rfl⟩ := List.mem_map.mp hq
  exact h x hx

theorem weightedSum_le_mul {l : List Review} {hi : ℚ}
    (hr : ∀ p ∈ l, p.rating ≤ hi) (hw : ∀ p ∈ l, 0 ≤ p.review_count) :
    sumBy (fun r => r.rating * r.review_count) l ≤
      hi * sumBy (fun r => r.review_count) l := by
  induction l with
  | nil => simp [sumBy]
  | cons p t ih =>
    rw [sumBy_cons, sumBy_cons, mul_add]
    have h1 : p.rating * p.review_count ≤ hi * p.review_count :=
      mul_le_mul_of_nonneg_right (hr p (by simp)) (hw p (by simp))
    have h2 := ih (fun q hq => hr q (by simp [hq])) (fun q hq => hw q (by simp [hq]))
    linarith

theorem mul_le_weightedSum {l : List Review} {lo : ℚ}
    (hr : ∀ p ∈ l, lo ≤ p.rating) (hw : ∀ p ∈ l, 0 ≤ p.review_count) :
    lo * sumBy (fun r => r.review_count) l ≤
      sumBy (fun r => r.rating * r.review_count) l := by
  induction l with
  | nil => simp [sumBy]
  | cons p t ih =>
    rw [sumBy_cons, sumBy_cons, mul_add]
    have h1 : lo * p.review_count ≤ p.rating * p.review_count :=
      mul_le_mul_of_nonneg_right (hr p (by simp)) (hw p (by simp))
    have h2 := ih (fun q hq => hr q (by simp [hq])) (fun q hq => hw q (by simp [hq]))
    linarith

theorem round1_nonneg {q : ℚ} (h : 0 ≤ q) : 0 ≤ round1 q := by
  unfold round1 jsRound
  apply div_nonneg _ (by norm_num)
  have : (0 : ℤ) ≤ ⌊q * 10 + 1 / 2⌋ := Int.floor_nonneg.mpr (by linarith)
  exact_mod_cast this

theorem round1_le_ten {q : ℚ} (h : q ≤ 10) : round1 q ≤ 10 := by
  unfold round1 jsRound
  rw [div_le_iff₀ (by norm_num)]
  have : ⌊q * 10 + 1 / 2⌋ < 101 := Int.floor_lt.mpr (by push_cast; linarith)
  have h2 : (⌊q * 10 + 1 / 2⌋ : ℚ) ≤ 100 := by exact_mod_cast Int.lt_add_one_iff.mp this
  linarith

/-! ### Claim C1 -/

/-- C1 counterexample: the claim says `calculateWeightedScore` returns
`undefined`, not `0`, on an empty pair list and on a list whose weights sum
to zero.  The function is number-valued and returns `0` in both cases
(`if (totalWeight === 0) return 0`), as its own doc comment states. -/
theorem c1_counterexample :
    calculateWeightedScore [] = 0 ∧ calculateWeightedScore [⟨7, 0⟩] = 0 := by
  constructor <;> norm_num [calculateWeightedScore, sumBy]

/-- C1 (amended): for every input list of `(rating, weight)` pairs that is
empty or whose weights sum to zero, `calculateWeightedScore` returns `0`
(not `undefined`); in particular `weightedScore([]) = 0` and
`weightedScore([(r, 0)]) = 0` for every rating `r`. -/
theorem c1_zero_weight_returns_zero (l : List Review)
    (h : sumBy (fun r => r.review_count) l = 0) :
    calculateWeightedScore l = 0 := by
  simp [calculateWeightedScore, h]

/-- C1 witness: the amended theorem applied to `[(7, 0)]`. -/
theorem c1_witness :
    sumBy (fun r => r.review_count) [(⟨7, 0⟩ : Review)] = 0 ∧
      calculateWeightedScore [⟨7, 0⟩] = 0 := by
  refine ⟨by norm_num [sumBy], c1_zero_weight_returns_zero _ (by norm_num [sumBy])⟩

/-! ### Claim C4 -/

/-- C4 counterexample: the claim says that on a 0–10 native-scale source
(booking included) a raw value exceeding 10 is divided by 10, landing the
normalized rating in `[0,10]`.  The Booking route performs no division at
all: raw `95` stays `95`, which is neither `95 / 10` nor within `[0,10]`. -/
theorem c4_counterexample :
    bookingNormalize 95 = 95 ∧ bookingNormalize 95 ≠ 95 / 10 ∧
      ¬ bookingNormalize 95 ≤ 10 := by
  norm_num [bookingNormalize]

/-- C4 (amended): only the Expedia route guards against a 0–100 source: in
its `rating > 5` branch (source already 0–10 or 0–100) it applies no
multiplication, divides by 10 exactly when the raw value exceeds 10, and maps
any raw value in `(5, 100]` into `[0,10]`.  The Booking route applies no
transformation at all (`normalizedRating = rating`), so its normalized rating
lies in `[0,10]` only when the raw rating already does. -/
theorem c4_zero_ten_normalization :
    (∀ r : ℚ, bookingNormalize r = r) ∧
    (∀ r : ℚ, 0 ≤ r → r ≤ 10 →
      0 ≤ bookingNormalize r ∧ bookingNormalize r ≤ 10) ∧
    (∀ r : ℚ, 5 < r →
      (r ≤ 10 → expediaNormalize r = r) ∧
      (10 < r → expediaNormalize r = r / 10) ∧
      (r ≤ 100 → 0 ≤ expediaNormalize r ∧ expediaNormalize r ≤ 10)) := by
  refine ⟨fun r => rfl, fun r h0 h1 => ⟨h0, h1⟩, fun r h5 => ⟨?_, ?_, ?_⟩⟩
  · intro h10
    simp [expediaNormalize, h5, not_lt.mpr h10]
  · intro h10
    simp [expediaNormalize, h5, h10]
  · intro h100
    unfold expediaNormalize
    split_ifs with ha
    · constructor <;> linarith
    · constructor <;> linarith

/-- C4 witness: the amended theorem applied to raw ratings `95` (Expedia,
0–100 representation) and `7` (Booking, already 0–10). -/
theorem c4_witness :
    expediaNormalize 95 = 95 / 10 ∧
      (0 ≤ expediaNormalize 95 ∧ expediaNormalize 95 ≤ 10) ∧
      (0 ≤ bookingNormalize 7 ∧ bookingNormalize 7 ≤ 10) := by
  refine ⟨(c4_zero_ten_normalization.2.2 95 (by norm_num)).2.1 (by norm_num),
    (c4_zero_ten_normalization.2.2 95 (by norm_num)).2.2 (by norm_num),
    c4_zero_ten_normalization.2.1 7 (by norm_num) (by norm_num)⟩

/-! ### Claim C6 -/

/-- C6: for all valid `(rating, scale)` pairs, `normalizeScore` is monotonic
in the rating for a fixed scale, and `normalizeScore(5, "1-5")` equals
exactly `10` — no truncation or rounding occurs in the stored normalized
value. -/
theorem c6_normalize_monotone_exact :
    (∀ (s : Scale) (r1 r2 : ℚ), r1 ≤ r2 →
      normalizeScore r1 s ≤ normalizeScore r2 s) ∧
    normalizeScore 5 Scale.one5 = 10 := by
  constructor
  · intro s r1 r2 h
    cases s
    · simp only [normalizeScore]
      linarith
    · simpa [normalizeScore] using h
  · norm_num [normalizeScore]

/-- C6 witness: monotonicity applied at `3 ≤ 4` on the 1–5 scale, plus the
exactness equation. -/
theorem c6_witness :
    normalizeScore 3 Scale.one5 ≤ normalizeScore 4 Scale.one5 ∧
      normalizeScore 5 Scale.one5 = 10 :=
  ⟨c6_normalize_monotone_exact.1 Scale.one5 3 4 (by norm_num),
   c6_normalize_monotone_exact.2⟩

/-! ### Claim C8 -/

/-- C8: for every observation set and every supported date range, building
the trend over the pre-filtered observation set equals building it with the
range applied internally — the range filter is applied before bucketing, both
paths run the identical bucketing pipeline, and filtering is idempotent, so
filtering and bucketing commute. -/
theorem c8_filter_bucket_commute (l : List ReviewSnapshot) (r : DateRange)
    (now : Ts) :
    buildTrend (filteredSnapshots r now l) DateRange.all now = buildTrend l r now ∧
    buildTrend (filteredSnapshots r now l) r now = buildTrend l r now := by
  constructor
  · rfl
  · cases r
    · simp [buildTrend, filteredSnapshots, getDateFilter, rangeDays,
        List.filter_filter]
    · simp [buildTrend, filteredSnapshots, getDateFilter, rangeDays,
        List.filter_filter]
    · simp [buildTrend, filteredSnapshots, getDateFilter, rangeDays,
        List.filter_filter]
    · rfl

/-! ### Claim C9 -/

/-- C9: the ingestion route is write-once — every database operation it
issues is an insert (never an update of an existing snapshot record), and
the resulting table extends the previous one, leaving every existing
Observation unchanged. -/
theorem c9_observations_write_once (db : List ReviewSnapshot) (hid : ℕ)
    (results : Platform → Option ReviewData) (observedAt : Ts) :
    (∃ newRows, runIngestion db hid results observedAt = db ++ newRows) ∧
    (ingestionOps hid results observedAt).all DbOp.isInsert = true := by
  by_cases hrows : buildReviewSnapshots hid results observedAt = []
  · exact ⟨⟨[], by simp [runIngestion, ingestionOps, hrows]⟩,
      by simp [ingestionOps, hrows]⟩
  · exact ⟨⟨buildReviewSnapshots hid results observedAt,
      by simp [runIngestion, ingestionOps, hrows, applyOp]⟩,
      by simp [ingestionOps, hrows, DbOp.isInsert]⟩

/-! ### Claim C10 -/

/-- C10: for every non-empty list of `(rating, review_count)` pairs with
ratings in `[0,10]`, nonnegative review counts and positive total count,
`calculateWeightedScore` returns the half-up rounding (to a multiple of
`1/10`) of the exact weighted mean, the result lies in `[0,10]`, and the
exact weighted mean itself lies between every lower and upper bound of the
input ratings (in particular between their minimum and maximum). -/
theorem c10_weighted_score_range (l : List Review) (_hne : l ≠ [])
    (hr : ∀ p ∈ l, 0 ≤ p.rating ∧ p.rating ≤ 10 ∧ 0 ≤ p.review_count)
    (hw : 0 < sumBy (fun r => r.review_count) l) :
    calculateWeightedScore l =
      round1 (sumBy (fun r => r.rating * r.review_count) l /
        sumBy (fun r => r.review_count) l) ∧
    0 ≤ calculateWeightedScore l ∧ calculateWeightedScore l ≤ 10 ∧
    (∃ n : ℤ, calculateWeightedScore l = (n : ℚ) / 10) ∧
    (∀ lo hi : ℚ, (∀ p ∈ l, lo ≤ p.rating ∧ p.rating ≤ hi) →
      lo ≤ sumBy (fun r => r.rating * r.review_count) l /
        sumBy (fun r => r.review_count) l ∧
      sumBy (fun r => r.rating * r.review_count) l /
        sumBy (fun r => r.review_count) l ≤ hi) := by
  have htw : sumBy (fun r => r.review_count) l ≠ 0 := ne_of_gt hw
  have hmean_le : sumBy (fun r => r.rating * r.review_count) l /
      sumBy (fun r => r.review_count) l ≤ 10 := by
    rw [div_le_iff₀ hw]
    have := @weightedSum_le_mul l 10
      (fun p hp => (hr p hp).2.1) (fun p hp => (hr p hp).2.2)
    linarith
  have hmean_ge : 0 ≤ sumBy (fun r => r.rating * r.review_count) l /
      sumBy (fun r => r.review_count) l := by
    rw [le_div_iff₀ hw]
    have := @mul_le_weightedSum l 0
      (fun p hp => (hr p hp).1) (fun p hp => (hr p hp).2.2)
    linarith
  have heq : calculateWeightedScore l =
      round1 (sumBy (fun r => r.rating * r.review_count) l /
        sumBy (fun r => r.review_count) l) := by
    simp [calculateWeightedScore, htw]
  refine ⟨heq, ?_, ?_, ?_, ?_⟩
  · rw [heq]; exact round1_nonneg hmean_ge
  · rw [heq]; exact round1_le_ten hmean_le
  · exact ⟨jsRound ((sumBy (fun r => r.rating * r.review_count) l /
      sumBy (fun r => r.review_count) l) * 10), by rw [heq]; rfl⟩
  · intro lo hi hb
    constructor
    · rw [le_div_iff₀ hw]
      have := @mul_le_weightedSum l lo
        (fun p hp => (hb p hp).1) (fun p hp => (hr p hp).2.2)
      linarith
    · rw [div_le_iff₀ hw]
      have := @weightedSum_le_mul l hi
        (fun p hp => (hb p hp).2) (fun p hp => (hr p hp).2.2)
      linarith

/-- C10 witness: the theorem applied to `[(9, 2), (8, 1)]`, whose weighted
score is `8.7`. -/
theorem c10_witness :
    calculateWeightedScore ([⟨9, 2⟩, ⟨8, 1⟩] : List Review) =
      round1 (sumBy (fun r => r.rating * r.review_count)
          ([⟨9, 2⟩, ⟨8, 1⟩] : List Review) /
        sumBy (fun r => r.review_count) ([⟨9, 2⟩, ⟨8, 1⟩] : List Review)) ∧
    0 ≤ calculateWeightedScore ([⟨9, 2⟩, ⟨8, 1⟩] : List Review) ∧
    calculateWeightedScore ([⟨9, 2⟩, ⟨8, 1⟩] : List Review) ≤ 10 := by
  have h := c10_weighted_score_range ([⟨9, 2⟩, ⟨8, 1⟩] : List Review) (by simp)
    (by
      intro p hp
      simp only [List.mem_cons, List.not_mem_nil, or_false] at hp
      rcases hp with h | h <;> subst h <;> norm_num)
    (by norm_num [sumBy])
  exact ⟨h.1, h.2.1, h.2.2.1⟩

/-! ### Claim C2 -/

/-- A snapshot with a listing but zero reviews. -/
def zeroCountSnap : ReviewSnapshot :=
  { hotel_id := 0
    platform := .google
    rating := 7
    original_rating := 7 / 2
    review_count := 0
    fetched_at := ⟨0, 0⟩ }

/-- A snapshot with a positive review count. -/
def posCountSnap : ReviewSnapshot :=
  { hotel_id := 0
    platform := .tripadvisor
    rating := 8
    original_rating := 4
    review_count := 5
    fetched_at := ⟨0, 0⟩ }

theorem firstPerPlatform_sub (l : List ReviewSnapshot)
    (pr : Platform × ReviewSnapshot) (h : pr ∈ firstPerPlatform l) :
    pr.2 ∈ l ∧ pr.1 = pr.2.platform := by
  suffices haux : ∀ (t : List ReviewSnapshot)
      (acc : List (Platform × ReviewSnapshot)),
      pr ∈ t.foldl
        (fun acc s =>
          match findPlat acc s.platform with
          | some _ => acc
          | none => acc ++ [(s.platform, s)]) acc →
      pr ∈ acc ∨ (pr.2 ∈ t ∧ pr.1 = pr.2.platform) by
    rcases haux l [] h with hacc | hok
    · simp at hacc
    · exact hok
  intro t
  induction t with
  | nil => intro acc hacc; exact Or.inl hacc
  | cons s u ih =>
    intro acc hacc
    rw [List.foldl_cons] at hacc
    rcases ih _ hacc with hstep | hu
    · cases hfp : findPlat acc s.platform with
      | some e =>
        rw [hfp] at hstep
        exact Or.inl hstep
      | none =>
        rw [hfp] at hstep
        rcases List.mem_append.mp hstep with hl | hr
        · exact Or.inl hl
        · simp only [List.mem_singleton] at hr
          subst hr
          exact Or.inr ⟨by simp, rfl⟩
    · exact Or.inr ⟨by simp [hu.1], hu.2⟩

theorem loadScoresData_counts (l : List ReviewSnapshot)
    (e : ScoreData) (h : e ∈ loadScoresData l) :
    ∃ s ∈ l, e.reviewCount = s.review_count := by
  unfold loadScoresData at h
  obtain ⟨pr, hpr, rfl⟩ := List.mem_map.mp h
  exact ⟨pr.2, (firstPerPlatform_sub l pr hpr).1, rfl⟩

theorem sumBy_scores_filter_pos (sd : List ScoreData)
    (h : ∀ e ∈ sd, 0 ≤ e.reviewCount) :
    loadWeightedSum sd =
      loadWeightedSum (sd.filter (fun e => decide (0 < e.reviewCount))) ∧
    loadTotalReviews sd =
      loadTotalReviews (sd.filter (fun e => decide (0 < e.reviewCount))) := by
  induction sd with
  | nil => simp
  | cons e t ih =>
    have ht := ih (fun x hx => h x (by simp [hx]))
    by_cases hp : 0 < e.reviewCount
    · rw [List.filter_cons_of_pos (by simpa using hp)]
      unfold loadWeightedSum loadTotalReviews at ht ⊢
      rw [sumBy_cons, sumBy_cons, sumBy_cons, sumBy_cons, ht.1, ht.2]
      exact ⟨rfl, rfl⟩
    · have hz : e.reviewCount = 0 :=
        le_antisymm (not_lt.mp hp) (h e (by simp))
      rw [List.filter_cons_of_neg (by simpa using hp)]
      unfold loadWeightedSum loadTotalReviews at ht ⊢
      rw [sumBy_cons, sumBy_cons, ht.1, ht.2, hz]
      constructor <;> ring

/-- C2 counterexample: the claim says a platform entry with
`review_count == 0` never appears in the per-platform list built by the
Hotel Score Builder.  The single-hotel builder (`loadHotelData`,
cited by the claim) applies no such filter: a zero-review-count snapshot
appears in its `scoresData` per-platform list. -/
theorem c2_counterexample :
    loadScoresData [zeroCountSnap] =
      [⟨Platform.google, 7, 7 / 2, 0⟩] ∧
    ¬ (∀ e ∈ loadScoresData [zeroCountSnap], 0 < e.reviewCount) := by
  have h1 : loadScoresData [zeroCountSnap] =
      [⟨Platform.google, 7, 7 / 2, 0⟩] := by
    simp [loadScoresData, firstPerPlatform, findPlat, zeroCountSnap]
  refine ⟨h1, fun h => ?_⟩
  have := h ⟨Platform.google, 7, 7 / 2, 0⟩ (by rw [h1]; simp)
  norm_num at this

/-- C2 (amended): the group-view builder (`buildHotelScoreData`) discards
zero-review-count platforms — every `PlatformScore` it emits and every pair
it feeds to the weighted-score calculator has `review_count > 0`.  The
single-hotel builder (`loadHotelData`) does NOT discard them — a zero-count
entry can appear in its per-platform list (see the counterexample) — but
with nonnegative review counts such entries still contribute nothing to its
weighted-average sums. -/
theorem c2_zero_count_platforms :
    (∀ (latest : ℕ × Platform → Option ReviewSnapshot) (hid : ℕ)
        (p : Platform) (ps : PlatformScore),
        buildPlatformData latest hid p = some ps → 0 < ps.review_count) ∧
    (∀ (latest : ℕ × Platform → Option ReviewSnapshot) (hid : ℕ),
        ∀ r ∈ buildReviews latest hid, 0 < r.review_count) ∧
    (∀ l : List ReviewSnapshot, (∀ s ∈ l, 0 ≤ s.review_count) →
        loadWeightedSum (loadScoresData l) =
          loadWeightedSum
            ((loadScoresData l).filter (fun e => decide (0 < e.reviewCount))) ∧
        loadTotalReviews (loadScoresData l) =
          loadTotalReviews
            ((loadScoresData l).filter (fun e => decide (0 < e.reviewCount)))) := by
  have hsurv : ∀ (latest : ℕ × Platform → Option ReviewSnapshot) (hid : ℕ)
      (p : Platform) (s : ReviewSnapshot),
      survivingSnapshot latest hid p = some s → 0 < s.review_count := by
    intro latest hid p s h
    unfold survivingSnapshot at h
    split at h
    · split_ifs at h with hc
      rw [Option.some_inj] at h
      subst h
      exact hc
    · exact absurd h (by simp)
  refine ⟨?_, ?_, ?_⟩
  · intro latest hid p ps h
    unfold buildPlatformData at h
    cases hs : survivingSnapshot latest hid p with
    | none => rw [hs] at h; exact absurd h (by simp)
    | some s =>
      rw [hs, Option.map_some'] at h
      rw [Option.some_inj] at h
      subst h
      exact hsurv latest hid p s hs
  · intro latest hid r hr
    unfold buildReviews at hr
    obtain ⟨p, _, hp⟩ := List.mem_filterMap.mp hr
    cases hs : survivingSnapshot latest hid p with
    | none => rw [hs] at hp; exact absurd hp (by simp)
    | some s =>
      rw [hs, Option.map_some'] at hp
      rw [Option.some_inj] at hp
      subst hp
      exact hsurv latest hid p s hs
  · intro l hl
    exact sumBy_scores_filter_pos (loadScoresData l)
      (fun e he => by
        obtain ⟨s, hs, hcount⟩ := loadScoresData_counts l e he
        rw [hcount]
        exact hl s hs)

/-- C2 witness: the amended theorem applied to a concrete survivor
(`posCountSnap` via `getLatestSnapshots`) and to the concrete snapshot list
`[zeroCountSnap, posCountSnap]`. -/
theorem c2_witness :
    0 < (⟨8, 5⟩ : PlatformScore).review_count ∧
    loadWeightedSum (loadScoresData [zeroCountSnap, posCountSnap]) =
      loadWeightedSum ((loadScoresData [zeroCountSnap, posCountSnap]).filter
        (fun e => decide (0 < e.reviewCount))) := by
  constructor
  · exact c2_zero_count_platforms.1 (getLatestSnapshots [posCountSnap]) 0
      .tripadvisor ⟨8, 5⟩
      (by norm_num [buildPlatformData, survivingSnapshot, getLatestSnapshots,
        latestStep, snapKey, posCountSnap])
  · exact (c2_zero_count_platforms.2.2 [zeroCountSnap, posCountSnap]
      (by
        intro s hs
        simp only [List.mem_cons, List.not_mem_nil, or_false] at hs
        rcases hs with h | h <;> subst h <;> norm_num [zeroCountSnap, posCountSnap])).1

/-! ### Claim C5 -/

theorem sumBy_map (f : β → ℚ) (g : α → β) (l : List α) :
    sumBy f (l.map g) = sumBy (fun x => f (g x)) l := by
  simp [sumBy_eq_map_sum, List.map_map, Function.comp_def]

theorem sumBy_flatten (f : α → ℚ) (ls : List (List α)) :
    sumBy f ls.flatten = sumBy (fun l => sumBy f l) ls := by
  simp [sumBy_eq_map_sum, List.map_flatten, List.sum_flatten, List.map_map,
    Function.comp_def]

theorem sumBy_congr {f g : α → ℚ} {l : List α} (h : ∀ x ∈ l, f x = g x) :
    sumBy f l = sumBy g l := by
  rw [sumBy_eq_map_sum, sumBy_eq_map_sum, List.map_congr_left h]

/-- Hotel A of the C5 counterexample: google 9.0 with 2 reviews,
tripadvisor 8.0 with 1 review. -/
def hotelAReviews : HotelReviews := ⟨1, [⟨9, 2⟩, ⟨8, 1⟩]⟩

/-- Hotel B of the C5 counterexample: google 8.0 with 3 reviews. -/
def hotelBReviews : HotelReviews := ⟨2, [⟨8, 3⟩]⟩

/-- The same date bucket as a snapshot union. -/
def bucketSnapA1 : ReviewSnapshot := ⟨1, .google, 9, 9 / 2, 2, ⟨0, 0⟩⟩

/-- Second snapshot of the C5 bucket. -/
def bucketSnapA2 : ReviewSnapshot := ⟨1, .tripadvisor, 8, 4, 1, ⟨0, 0⟩⟩

/-- Third snapshot of the C5 bucket (hotel B). -/
def bucketSnapB1 : ReviewSnapshot := ⟨2, .google, 8, 4, 3, ⟨0, 0⟩⟩

/-- C5 counterexample: over the bucket {hotel A: (9.0, 2 reviews),
(8.0, 1 review); hotel B: (8.0, 3 reviews)} the trend point's flat weighted
average (`chartData`) is `8.3`, while the §4.5 overall aggregate
(`calculateGroupAggregateScore`, which rounds each hotel's score to one
decimal before re-averaging) is `8.4` — the two computations differ. -/
theorem c5_counterexample :
    dateAggregate [bucketSnapA1, bucketSnapA2, bucketSnapB1] = 83 / 10 ∧
    calculateGroupAggregateScore [hotelAReviews, hotelBReviews] =
      some (42 / 5) ∧
    (83 / 10 : ℚ) ≠ 42 / 5 := by
  refine ⟨?_, ?_, by norm_num⟩
  · norm_num [dateAggregate, sumBy, round1, jsRound,
      bucketSnapA1, bucketSnapA2, bucketSnapB1]
  · have hfm : List.filterMap (fun h : HotelReviews =>
        if h.reviews = [] then (none : Option ScoreTotal)
        else some ⟨calculateWeightedScore h.reviews,
          sumBy (fun r => r.review_count) h.reviews⟩)
        [hotelAReviews, hotelBReviews] = [⟨87 / 10, 3⟩, ⟨8, 3⟩] := by
      simp only [List.filterMap_cons, List.filterMap_nil]
      rw [if_neg (by simp [hotelAReviews]), if_neg (by simp [hotelBReviews])]
      norm_num [calculateWeightedScore, sumBy, round1, jsRound,
        hotelAReviews, hotelBReviews]
    simp only [calculateGroupAggregateScore]
    rw [if_neg (by simp), hfm, if_neg (by simp)]
    norm_num [sumBy, round1, jsRound]

/-- C5 (amended): the group-scope trend point is a single flat weighted
average over the bucket union — it coincides with
`calculateGroupAggregateForDate` — and it agrees with the §4.5 nested
computation only up to the intermediate rounding: when each hotel's exact
(unrounded) weighted mean is used, the nested weighted average of hotel
means (weighted by hotel total review counts) equals the flat weighted
average over the union.  With `calculateGroupAggregateScore`'s per-hotel
rounding the two can differ (see the counterexample). -/
theorem c5_flat_vs_nested :
    (∀ l : List ReviewSnapshot, l ≠ [] →
      0 < sumBy (fun s => s.review_count) l →
      calculateGroupAggregateForDate
          (l.map (fun s => ⟨s.rating, s.review_count⟩)) =
        some (dateAggregate l)) ∧
    (∀ hotels : List HotelReviews,
      (∀ h ∈ hotels, 0 < sumBy (fun r => r.review_count) h.reviews) →
      sumBy (fun h =>
          (sumBy (fun r => r.rating * r.review_count) h.reviews /
            sumBy (fun r => r.review_count) h.reviews) *
          sumBy (fun r => r.review_count) h.reviews) hotels /
        sumBy (fun h => sumBy (fun r => r.review_count) h.reviews) hotels =
      sumBy (fun r => r.rating * r.review_count)
          ((hotels.map HotelReviews.reviews).flatten) /
        sumBy (fun r => r.review_count)
          ((hotels.map HotelReviews.reviews).flatten)) := by
  constructor
  · intro l hne hpos
    have hmap_ne : l.map (fun s => (⟨s.rating, s.review_count⟩ : Review)) ≠ [] := by
      simpa using hne
    have htw : sumBy (fun r : Review => r.review_count)
        (l.map (fun s => ⟨s.rating, s.review_count⟩)) =
        sumBy (fun s => s.review_count) l := by
      rw [sumBy_map]
    have hws : sumBy (fun r : Review => r.rating * r.review_count)
        (l.map (fun s => ⟨s.rating, s.review_count⟩)) =
        sumBy (fun s => s.rating * s.review_count) l := by
      rw [sumBy_map]
    unfold calculateGroupAggregateForDate calculateWeightedScore dateAggregate
    rw [if_neg hmap_ne, htw, hws, if_neg (ne_of_gt hpos), if_pos hpos]
  · intro hotels hpos
    have hnum : sumBy (fun h =>
        (sumBy (fun r => r.rating * r.review_count) h.reviews /
          sumBy (fun r => r.review_count) h.reviews) *
        sumBy (fun r => r.review_count) h.reviews) hotels =
        sumBy (fun r => r.rating * r.review_count)
          ((hotels.map HotelReviews.reviews).flatten) := by
      rw [sumBy_flatten, sumBy_map]
      exact sumBy_congr (fun h hh =>
        div_mul_cancel₀ _ (ne_of_gt (hpos h hh)))
    have hden : sumBy (fun h => sumBy (fun r => r.review_count) h.reviews)
        hotels =
        sumBy (fun r => r.review_count)
          ((hotels.map HotelReviews.reviews).flatten) := by
      rw [sumBy_flatten, sumBy_map]
    rw [hnum, hden]

/-- C5 witness: the amended theorem applied to the one-snapshot bucket
`[bucketSnapB1]` and to the one-hotel group `[hotelBReviews]`. -/
theorem c5_witness :
    calculateGroupAggregateForDate
        ([bucketSnapB1].map (fun s => ⟨s.rating, s.review_count⟩)) =
      some (dateAggregate [bucketSnapB1]) ∧
    sumBy (fun h =>
        (sumBy (fun r => r.rating * r.review_count) h.reviews /
          sumBy (fun r => r.review_count) h.reviews) *
        sumBy (fun r => r.review_count) h.reviews) [hotelBReviews] /
      sumBy (fun h => sumBy (fun r => r.review_count) h.reviews)
        [hotelBReviews] =
    sumBy (fun r => r.rating * r.review_count)
        (([hotelBReviews].map HotelReviews.reviews).flatten) /
      sumBy (fun r => r.review_count)
        (([hotelBReviews].map HotelReviews.reviews).flatten) := by
  constructor
  · exact c5_flat_vs_nested.1 [bucketSnapB1] (by simp)
      (by norm_num [sumBy, bucketSnapB1])
  · exact c5_flat_vs_nested.2 [hotelBReviews]
      (by
        intro h hh
        simp only [List.mem_singleton] at hh
        subst hh
        norm_num [sumBy, hotelBReviews])

/-! ### Claim C3 -/

theorem tsLe_trans {a b c : Ts} (h1 : tsLe a b) (h2 : tsLe b c) : tsLe a c := by
  unfold tsLe at h1 h2 ⊢
  omega

theorem latest_foldl_spec (l : List ReviewSnapshot)
    (m : ℕ × Platform → Option ReviewSnapshot) (k : ℕ × Platform) :
    (l.foldl latestStep m k = none → m k = none ∧ ∀ t ∈ l, snapKey t ≠ k) ∧
    (∀ s, l.foldl latestStep m k = some s →
      (s ∈ l ∧ snapKey s = k ∨ m k = some s) ∧
      (∀ t ∈ l, snapKey t = k → tsLe t.fetched_at s.fetched_at) ∧
      (∀ e, m k = some e → tsLe e.fetched_at s.fetched_at)) := by
  induction l generalizing m with
  | nil =>
    constructor
    · intro h
      rw [List.foldl_nil] at h
      exact ⟨h, by simp⟩
    · intro s hs
      rw [List.foldl_nil] at hs
      refine ⟨Or.inr hs, by simp, ?_⟩
      intro e he
      rw [hs, Option.some_inj] at he
      subst he
      exact tsLe_refl _
  | cons s0 rest ih =>
    have IH := ih (latestStep m s0)
    rw [List.foldl_cons]
    by_cases hk : k = snapKey s0
    · cases hmk : m k with
      | none =>
        have hmk' : m (snapKey s0) = none := by rw [← hk]; exact hmk
        have hm' : latestStep m s0 k = some s0 := by
          simp [latestStep, hk, hmk']
        constructor
        · intro hnone
          have := (IH.1 hnone).1
          rw [hm'] at this
          exact absurd this (by simp)
        · intro s hs
          have hspec := IH.2 s hs
          refine ⟨?_, ?_, ?_⟩
          · rcases hspec.1 with ⟨hin, hkey⟩ | hm's
            · exact Or.inl ⟨by simp [hin], hkey⟩
            · rw [hm', Option.some_inj] at hm's
              subst hm's
              exact Or.inl ⟨by simp, hk.symm⟩
          · intro t ht htk
            rcases List.mem_cons.mp ht with rfl | htr
            · exact hspec.2.2 t hm'
            · exact hspec.2.1 t htr htk
          · intro e he
            exact absurd he (by simp)
      | some e0 =>
        have hmk' : m (snapKey s0) = some e0 := by rw [← hk]; exact hmk
        by_cases hlt : tsLt e0.fetched_at s0.fetched_at
        · have hm' : latestStep m s0 k = some s0 := by
            simp [latestStep, hk, hmk', hlt]
          constructor
          · intro hnone
            have := (IH.1 hnone).1
            rw [hm'] at this
            exact absurd this (by simp)
          · intro s hs
            have hspec := IH.2 s hs
            refine ⟨?_, ?_, ?_⟩
            · rcases hspec.1 with ⟨hin, hkey⟩ | hm's
              · exact Or.inl ⟨by simp [hin], hkey⟩
              · rw [hm', Option.some_inj] at hm's
                subst hm's
                exact Or.inl ⟨by simp, hk.symm⟩
            · intro t ht htk
              rcases List.mem_cons.mp ht with rfl | htr
              · exact hspec.2.2 t hm'
              · exact hspec.2.1 t htr htk
            · intro e he
              rw [Option.some_inj] at he
              subst he
              exact tsLe_trans (tsLe_of_tsLt hlt) (hspec.2.2 s0 hm')
        · have hm' : latestStep m s0 k = some e0 := by
            simp [latestStep, hk, hmk', hlt]
          constructor
          · intro hnone
            have := (IH.1 hnone).1
            rw [hm'] at this
            exact absurd this (by simp)
          · intro s hs
            have hspec := IH.2 s hs
            refine ⟨?_, ?_, ?_⟩
            · rcases hspec.1 with ⟨hin, hkey⟩ | hm's
              · exact Or.inl ⟨by simp [hin], hkey⟩
              · exact Or.inr (hm'.symm.trans hm's)
            · intro t ht htk
              rcases List.mem_cons.mp ht with rfl | htr
              · exact tsLe_trans (tsLe_of_not_tsLt hlt) (hspec.2.2 e0 hm')
              · exact hspec.2.1 t htr htk
            · intro e he
              rw [Option.some_inj] at he
              subst he
              exact hspec.2.2 e0 hm'
    · have hm' : latestStep m s0 k = m k := by
        simp [latestStep, hk]
      constructor
      · intro hnone
        have h1 := IH.1 hnone
        refine ⟨hm'.symm.trans h1.1, ?_⟩
        intro t ht
        rcases List.mem_cons.mp ht with rfl | htr
        · exact fun hc => hk hc.symm
        · exact h1.2 t htr
      · intro s hs
        have hspec := IH.2 s hs
        refine ⟨?_, ?_, ?_⟩
        · rcases hspec.1 with ⟨hin, hkey⟩ | hm's
          · exact Or.inl ⟨by simp [hin], hkey⟩
          · exact Or.inr (hm'.symm.trans hm's)
        · intro t ht htk
          rcases List.mem_cons.mp ht with rfl | htr
          · exact absurd htk (fun hc => hk hc.symm)
          · exact hspec.2.1 t htr htk
        · intro e he
          exact hspec.2.2 e (by rw [hm']; exact he)

theorem getLatest_some {l : List ReviewSnapshot} {k : ℕ × Platform}
    {s : ReviewSnapshot} (h : getLatestSnapshots l k = some s) :
    s ∈ l ∧ snapKey s = k ∧
      ∀ t ∈ l, snapKey t = k → tsLe t.fetched_at s.fetched_at := by
  have hspec := (latest_foldl_spec l (fun _ => none) k).2 s h
  rcases hspec.1 with ⟨hin, hkey⟩ | hnone
  · exact ⟨hin, hkey, hspec.2.1⟩
  · exact absurd hnone (by simp)

theorem getLatest_none_iff {l : List ReviewSnapshot} {k : ℕ × Platform} :
    getLatestSnapshots l k = none ↔ ∀ t ∈ l, snapKey t ≠ k := by
  constructor
  · intro h
    exact ((latest_foldl_spec l (fun _ => none) k).1 h).2
  · intro h
    cases hres : getLatestSnapshots l k with
    | none => rfl
    | some s =>
      have hs := getLatest_some hres
      exact absurd hs.2.1 (h s hs.1)

theorem getLatest_perm {l l2 : List ReviewSnapshot} (hperm : l.Perm l2)
    (hinj : ∀ a ∈ l, ∀ b ∈ l, snapKey a = snapKey b →
      a.fetched_at = b.fetched_at → a = b) :
    getLatestSnapshots l = getLatestSnapshots l2 := by
  funext k
  cases h1 : getLatestSnapshots l k with
  | none =>
    cases h2 : getLatestSnapshots l2 k with
    | none => rfl
    | some s2 =>
      have hs2 := getLatest_some h2
      exact absurd hs2.2.1 (getLatest_none_iff.mp h1 s2 (hperm.mem_iff.mpr hs2.1))
  | some s1 =>
    cases h2 : getLatestSnapshots l2 k with
    | none =>
      have hs1 := getLatest_some h1
      exact absurd hs1.2.1 (getLatest_none_iff.mp h2 s1 (hperm.mem_iff.mp hs1.1))
    | some s2 =>
      have hs1 := getLatest_some h1
      have hs2 := getLatest_some h2
      have hs2l : s2 ∈ l := hperm.mem_iff.mpr hs2.1
      have hle1 : tsLe s1.fetched_at s2.fetched_at :=
        hs2.2.2 s1 (hperm.mem_iff.mp hs1.1) hs1.2.1
      have hle2 : tsLe s2.fetched_at s1.fetched_at :=
        hs1.2.2 s2 hs2l hs2.2.1
      rw [hinj s1 hs1.1 s2 hs2l (hs1.2.1.trans hs2.2.1.symm)
        (tsLe_antisymm hle1 hle2)]

/-- The `t = 1` observation of the claim's worked example. -/
def snapT1 : ReviewSnapshot := ⟨0, .google, 5, 5 / 2, 10, ⟨0, 1⟩⟩

/-- The `t = 3` observation of the claim's worked example. -/
def snapT3 : ReviewSnapshot := ⟨0, .google, 6, 3, 10, ⟨0, 3⟩⟩

/-- The `t = 2` observation of the claim's worked example. -/
def snapT2 : ReviewSnapshot := ⟨0, .google, 7, 7 / 2, 10, ⟨0, 2⟩⟩

/-- A tied-timestamp observation. -/
def tieSnapA : ReviewSnapshot := ⟨0, .google, 5, 5 / 2, 10, ⟨0, 0⟩⟩

/-- A distinct observation with the same key and timestamp as `tieSnapA`. -/
def tieSnapB : ReviewSnapshot := ⟨0, .google, 9, 9 / 2, 10, ⟨0, 0⟩⟩

/-- C3 counterexample: (1) the single-hotel page's latest-per-key selection
(`loadHotelData`'s `platformMap`, cited by the claim) keeps the FIRST record
in input order, so over the claim's own example
`[(A,google,t=1), (A,google,t=3), (A,google,t=2)]` it returns the `t = 1`
record, not the `t = 3` record; (2) `getLatestSnapshots` breaks
maximum-timestamp ties by insertion order, so on two distinct tied records
the result depends on the input permutation. -/
theorem c3_counterexample :
    findPlat (firstPerPlatform [snapT1, snapT3, snapT2]) .google =
      some snapT1 ∧
    snapT1 ≠ snapT3 ∧
    getLatestSnapshots [tieSnapA, tieSnapB] (0, .google) = some tieSnapA ∧
    getLatestSnapshots [tieSnapB, tieSnapA] (0, .google) = some tieSnapB ∧
    tieSnapA ≠ tieSnapB := by
  refine ⟨?_, ?_, ?_, ?_, ?_⟩
  · simp [firstPerPlatform, findPlat, snapT1, snapT3, snapT2]
  · norm_num [snapT1, snapT3]
  · simp [getLatestSnapshots, latestStep, snapKey, tsLt, tieSnapA, tieSnapB]
  · simp [getLatestSnapshots, latestStep, snapKey, tsLt, tieSnapA, tieSnapB]
  · norm_num [tieSnapA, tieSnapB]

/-- C3 (amended): `getLatestSnapshots` (GroupScoreCard) returns, per
(entity, platform) key, an observation of that key with maximal
`fetched_at` (and `none` exactly when the key has no observations); and its
result is permutation-invariant provided no two distinct observations of
the same key share a timestamp — on ties it keeps the first-inserted record,
so permutation invariance fails (see the counterexample), as does the
single-hotel page's first-wins `platformMap`, which is order-correct only on
input presorted by descending `fetched_at`. -/
theorem c3_latest_per_key :
    (∀ (l : List ReviewSnapshot) (k : ℕ × Platform) (s : ReviewSnapshot),
      getLatestSnapshots l k = some s →
        s ∈ l ∧ snapKey s = k ∧
        ∀ t ∈ l, snapKey t = k → tsLe t.fetched_at s.fetched_at) ∧
    (∀ (l : List ReviewSnapshot) (k : ℕ × Platform),
      getLatestSnapshots l k = none ↔ ∀ t ∈ l, snapKey t ≠ k) ∧
    (∀ l l2 : List ReviewSnapshot, l.Perm l2 →
      (∀ a ∈ l, ∀ b ∈ l, snapKey a = snapKey b →
        a.fetched_at = b.fetched_at → a = b) →
      getLatestSnapshots l = getLatestSnapshots l2) :=
  ⟨fun _ _ _ h => getLatest_some h, fun _ _ => getLatest_none_iff,
   fun _ _ hp hi => getLatest_perm hp hi⟩

/-- C3 witness: permutation invariance applied to the worked example with
its three distinct timestamps. -/
theorem c3_witness :
    getLatestSnapshots [snapT1, snapT3, snapT2] =
      getLatestSnapshots [snapT3, snapT1, snapT2] := by
  apply c3_latest_per_key.2.2
  · exact List.Perm.swap snapT3 snapT1 [snapT2]
  · intro a ha b hb hk ht
    simp only [List.mem_cons, List.not_mem_nil, or_false] at ha hb
    rcases ha with rfl | rfl | rfl <;> rcases hb with rfl | rfl | rfl <;>
      first
        | rfl
        | (exfalso; revert ht; simp [snapT1, snapT3, snapT2])

/-! ### Claim C7 -/

theorem addSnap_keys_mem {acc : List (ℤ × List ReviewSnapshot)}
    {s : ReviewSnapshot} (h : dateKey s ∈ acc.map Prod.fst) :
    (addSnap acc s).map Prod.fst = acc.map Prod.fst := by
  induction acc with
  | nil => simp at h
  | cons kb t ih =>
    obtain ⟨k, b⟩ := kb
    by_cases hk : k = dateKey s
    · simp [addSnap, hk]
    · have hmem : dateKey s ∈ t.map Prod.fst := by
        rcases List.mem_cons.mp h with hh | hh
        · exact absurd hh.symm hk
        · exact hh
      simp [addSnap, hk, ih hmem]

theorem addSnap_keys_not_mem {acc : List (ℤ × List ReviewSnapshot)}
    {s : ReviewSnapshot} (h : dateKey s ∉ acc.map Prod.fst) :
    (addSnap acc s).map Prod.fst = acc.map Prod.fst ++ [dateKey s] := by
  induction acc with
  | nil => simp [addSnap]
  | cons kb t ih =>
    obtain ⟨k, b⟩ := kb
    have hk : k ≠ dateKey s := fun hc => h (by simp [hc])
    have hmem : dateKey s ∉ t.map Prod.fst := fun hc => h (by simp [hc])
    simp [addSnap, hk, ih hmem]

theorem addSnap_nodup {acc : List (ℤ × List ReviewSnapshot)}
    {s : ReviewSnapshot} (h : (acc.map Prod.fst).Nodup) :
    ((addSnap acc s).map Prod.fst).Nodup := by
  by_cases hmem : dateKey s ∈ acc.map Prod.fst
  · rw [addSnap_keys_mem hmem]
    exact h
  · rw [addSnap_keys_not_mem hmem]
    simp [List.nodup_append, h, hmem]

theorem addSnap_mem_spec {acc : List (ℤ × List ReviewSnapshot)}
    {s : ReviewSnapshot} {d : ℤ} {snaps : List ReviewSnapshot}
    (h : (d, snaps) ∈ addSnap acc s) :
    (∃ snaps0, (d, snaps0) ∈ acc ∧
      (snaps = snaps0 ∨ (d = dateKey s ∧ snaps = snaps0 ++ [s]))) ∨
    (d = dateKey s ∧ snaps = [s]) := by
  induction acc with
  | nil =>
    simp only [addSnap, List.mem_singleton, Prod.mk.injEq] at h
    exact Or.inr ⟨h.1, h.2⟩
  | cons kb t ih =>
    obtain ⟨k, b⟩ := kb
    by_cases hk : k = dateKey s
    · rw [show addSnap ((k, b) :: t) s = (k, b ++ [s]) :: t from by
        simp [addSnap, hk]] at h
      rcases List.mem_cons.mp h with hh | hh
      · rw [Prod.mk.injEq] at hh
        exact Or.inl ⟨b, by simp [hh.1], Or.inr ⟨hh.1 ▸ hk, hh.2⟩⟩
      · exact Or.inl ⟨snaps, by simp [hh], Or.inl rfl⟩
    · rw [show addSnap ((k, b) :: t) s = (k, b) :: addSnap t s from by
        simp [addSnap, hk]] at h
      rcases List.mem_cons.mp h with hh | hh
      · rw [Prod.mk.injEq] at hh
        exact Or.inl ⟨b, by simp [hh.1, hh.2], Or.inl hh.2⟩
      · rcases ih hh with ⟨snaps0, h0, hc⟩ | hr
        · exact Or.inl ⟨snaps0, by simp [h0], hc⟩
        · exact Or.inr hr

theorem addSnap_keyed {acc : List (ℤ × List ReviewSnapshot)}
    {s : ReviewSnapshot}
    (hacc : ∀ d snaps, (d, snaps) ∈ acc → ∀ x ∈ snaps, dateKey x = d) :
    ∀ d snaps, (d, snaps) ∈ addSnap acc s → ∀ x ∈ snaps, dateKey x = d := by
  intro d snaps hmem x hx
  rcases addSnap_mem_spec hmem with ⟨snaps0, h0, hcase⟩ | ⟨hd, hsnaps⟩
  · rcases hcase with rfl | ⟨hd, rfl⟩
    · exact hacc d snaps h0 x hx
    · rcases List.mem_append.mp hx with hxl | hxr
      · exact hacc d snaps0 h0 x hxl
      · rw [List.mem_singleton] at hxr
        subst hxr
        exact hd.symm
  · subst hd
    subst hsnaps
    rw [List.mem_singleton] at hx
    subst hx
    rfl

theorem addSnap_mono {acc : List (ℤ × List ReviewSnapshot)}
    {s : ReviewSnapshot} {d : ℤ} {snaps : List ReviewSnapshot}
    (h : (d, snaps) ∈ acc) :
    ∃ snaps2, (d, snaps2) ∈ addSnap acc s ∧ ∀ x ∈ snaps, x ∈ snaps2 := by
  induction acc with
  | nil => simp at h
  | cons kb t ih =>
    obtain ⟨k, b⟩ := kb
    by_cases hk : k = dateKey s
    · rw [show addSnap ((k, b) :: t) s = (k, b ++ [s]) :: t from by
        simp [addSnap, hk]]
      rcases List.mem_cons.mp h with hh | hh
      · rw [Prod.mk.injEq] at hh
        exact ⟨b ++ [s], by simp [hh.1], fun x hx => by simp [hh.2 ▸ hx]⟩
      · exact ⟨snaps, by simp [hh], fun x hx => hx⟩
    · rw [show addSnap ((k, b) :: t) s = (k, b) :: addSnap t s from by
        simp [addSnap, hk]]
      rcases List.mem_cons.mp h with hh | hh
      · exact ⟨snaps, by simp [hh], fun x hx => hx⟩
      · obtain ⟨snaps2, hmem2, hsub2⟩ := ih hh
        exact ⟨snaps2, by simp [hmem2], hsub2⟩

theorem addSnap_self (acc : List (ℤ × List ReviewSnapshot))
    (s : ReviewSnapshot) :
    ∃ snaps, (dateKey s, snaps) ∈ addSnap acc s ∧ s ∈ snaps := by
  induction acc with
  | nil => exact ⟨[s], by simp [addSnap], by simp⟩
  | cons kb t ih =>
    obtain ⟨k, b⟩ := kb
    by_cases hk : k = dateKey s
    · refine ⟨b ++ [s], ?_, by simp⟩
      rw [show addSnap ((k, b) :: t) s = (k, b ++ [s]) :: t from by
        simp [addSnap, hk]]
      simp [hk]
    · obtain ⟨snaps, hmem, hs⟩ := ih
      refine ⟨snaps, ?_, hs⟩
      rw [show addSnap ((k, b) :: t) s = (k, b) :: addSnap t s from by
        simp [addSnap, hk]]
      simp [hmem]

theorem groupFold_spec (l : List ReviewSnapshot) :
    ∀ (acc : List (ℤ × List ReviewSnapshot)),
    (acc.map Prod.fst).Nodup →
    (∀ d snaps, (d, snaps) ∈ acc → ∀ x ∈ snaps, dateKey x = d) →
    ((l.foldl addSnap acc).map Prod.fst).Nodup ∧
    (∀ d snaps, (d, snaps) ∈ l.foldl addSnap acc →
      ∀ x ∈ snaps, dateKey x = d) ∧
    (∀ d snaps, (d, snaps) ∈ acc →
      ∃ snaps2, (d, snaps2) ∈ l.foldl addSnap acc ∧ ∀ x ∈ snaps, x ∈ snaps2) ∧
    (∀ s ∈ l, ∃ snaps, (dateKey s, snaps) ∈ l.foldl addSnap acc ∧ s ∈ snaps) := by
  induction l with
  | nil =>
    intro acc h1 h2
    exact ⟨h1, h2, fun d snaps h => ⟨snaps, h, fun x hx => hx⟩, by simp⟩
  | cons s0 rest ih =>
    intro acc h1 h2
    rw [List.foldl_cons]
    have IH := ih (addSnap acc s0) (addSnap_nodup h1) (addSnap_keyed h2)
    refine ⟨IH.1, IH.2.1, ?_, ?_⟩
    · intro d snaps hmem
      obtain ⟨snaps1, hmem1, hsub1⟩ := @addSnap_mono _ s0 _ _ hmem
      obtain ⟨snaps2, hmem2, hsub2⟩ := IH.2.2.1 d snaps1 hmem1
      exact ⟨snaps2, hmem2, fun x hx => hsub2 x (hsub1 x hx)⟩
    · intro s hs
      rcases List.mem_cons.mp hs with rfl | hsr
      · obtain ⟨snaps1, hmem1, hself⟩ := addSnap_self acc s
        obtain ⟨snaps2, hmem2, hsub2⟩ := IH.2.2.1 (dateKey s) snaps1 hmem1
        exact ⟨snaps2, hmem2, hsub2 s hself⟩
      · exact IH.2.2.2 s hsr

theorem insertPoint_perm (p : TrendPoint) (l : List TrendPoint) :
    (insertPoint p l).Perm (p :: l) := by
  induction l with
  | nil => simp [insertPoint]
  | cons q t ih =>
    unfold insertPoint
    split_ifs
    · exact (ih.cons q).trans (List.Perm.swap p q t)
    · exact List.Perm.refl _

theorem sortPoints_perm (l : List TrendPoint) : (sortPoints l).Perm l := by
  induction l with
  | nil => simp [sortPoints]
  | cons p t ih =>
    unfold sortPoints
    exact (insertPoint_perm p (sortPoints t)).trans (ih.cons p)

theorem chartPoints_perm (l : List ReviewSnapshot) :
    (chartPoints l).Perm
      ((groupByDate l).map (fun kb => ⟨kb.1, dateAggregate kb.2⟩)) :=
  sortPoints_perm _

/-- C7: in the trend builder (`chartData`), two observations with distinct
calendar dates never land in the same date bucket (hence never contribute to
the same TrendPoint), every bucket's observations all carry the bucket's
date, the bucket keys are pairwise distinct, every observation lands in the
(unique) bucket of its own calendar date, and the emitted trend has pairwise
distinct dates with one point carrying each observation's date. -/
theorem c7_trend_bucketing :
    (∀ (l : List ReviewSnapshot) (d : ℤ) (snaps : List ReviewSnapshot)
      (s1 s2 : ReviewSnapshot), (d, snaps) ∈ groupByDate l →
      s1 ∈ snaps → s2 ∈ snaps → dateKey s1 = dateKey s2) ∧
    (∀ (l : List ReviewSnapshot) (d : ℤ) (snaps : List ReviewSnapshot),
      (d, snaps) ∈ groupByDate l → ∀ s ∈ snaps, dateKey s = d) ∧
    (∀ l : List ReviewSnapshot, ((groupByDate l).map Prod.fst).Nodup) ∧
    (∀ l : List ReviewSnapshot, ∀ s ∈ l,
      ∃ snaps, (dateKey s, snaps) ∈ groupByDate l ∧ s ∈ snaps) ∧
    (∀ l : List ReviewSnapshot, ((chartPoints l).map TrendPoint.date).Nodup) ∧
    (∀ l : List ReviewSnapshot, ∀ s ∈ l,
      ∃ p ∈ chartPoints l, p.date = dateKey s) := by
  have hbase : ∀ l : List ReviewSnapshot,
      ((groupByDate l).map Prod.fst).Nodup ∧
      (∀ d snaps, (d, snaps) ∈ groupByDate l → ∀ x ∈ snaps, dateKey x = d) ∧
      (∀ s ∈ l, ∃ snaps, (dateKey s, snaps) ∈ groupByDate l ∧ s ∈ snaps) := by
    intro l
    have h := groupFold_spec l [] (by simp) (by simp)
    exact ⟨h.1, h.2.1, h.2.2.2⟩
  have hdates : ∀ l : List ReviewSnapshot,
      ((chartPoints l).map TrendPoint.date).Perm
        ((groupByDate l).map Prod.fst) := by
    intro l
    have h1 := (chartPoints_perm l).map TrendPoint.date
    have h2 : ((groupByDate l).map
        (fun kb : ℤ × List ReviewSnapshot =>
          (⟨kb.1, dateAggregate kb.2⟩ : TrendPoint))).map TrendPoint.date =
        (groupByDate l).map Prod.fst := by
      rw [List.map_map]
      rfl
    rw [h2] at h1
    exact h1
  refine ⟨?_, fun l => (hbase l).2.1, fun l => (hbase l).1,
    fun l => (hbase l).2.2, ?_, ?_⟩
  · intro l d snaps s1 s2 hmem h1 h2
    rw [(hbase l).2.1 d snaps hmem s1 h1, (hbase l).2.1 d snaps hmem s2 h2]
  · intro l
    exact ((hdates l).nodup_iff).mpr (hbase l).1
  · intro l s hs
    obtain ⟨snaps, hmem, _⟩ := (hbase l).2.2 s hs
    refine ⟨⟨dateKey s, dateAggregate snaps⟩, ?_, rfl⟩
    rw [(chartPoints_perm l).mem_iff]
    exact List.mem_map.mpr ⟨(dateKey s, snaps), hmem, rfl⟩

/-- An observation on day 5, morning. -/
def daySnapX : ReviewSnapshot := ⟨0, .google, 8, 4, 10, ⟨5, 1⟩⟩

/-- An observation on day 5, evening (same calendar date as `daySnapX`). -/
def daySnapY : ReviewSnapshot := ⟨0, .tripadvisor, 9, 9 / 2, 12, ⟨5, 7⟩⟩

/-- An observation on day 6 (a different calendar date). -/
def daySnapZ : ReviewSnapshot := ⟨0, .google, 7, 7 / 2, 3, ⟨6, 0⟩⟩

/-- C7 witness: the bucketing theorem applied to a concrete three-snapshot
history spanning two calendar dates. -/
theorem c7_witness :
    (∃ snaps, (dateKey daySnapX, snaps) ∈
        groupByDate [daySnapX, daySnapY, daySnapZ] ∧ daySnapX ∈ snaps) ∧
    ((groupByDate [daySnapX, daySnapY, daySnapZ]).map Prod.fst).Nodup ∧
    ((chartPoints [daySnapX, daySnapY, daySnapZ]).map TrendPoint.date).Nodup :=
  ⟨c7_trend_bucketing.2.2.2.1 [daySnapX, daySnapY, daySnapZ] daySnapX
      (by simp),
   c7_trend_bucketing.2.2.1 [daySnapX, daySnapY, daySnapZ],
   c7_trend_bucketing.2.2.2.2.1 [daySnapX, daySnapY, daySnapZ]⟩

end Kasa
